import Mathlib

/-!
Verification of the TAR open-data ingestion core of the Lithuanian-law-mcp
repository: the rate-limited fetch client (`src/scripts/lib/fetcher.ts`), the
edition resolver and summary merge (`src/scripts/ingest.ts`), and the document
segmenter (`src/scripts/lib/parser.ts`).

Modelling conventions:
* TypeScript strings that are scanned character by character (the parser input)
  are modelled as `List Char`; strings that are only compared or concatenated
  (identifiers, URLs, error messages) are modelled as `String`.  JavaScript
  string `.length` counts UTF-16 code units while `List Char` counts code
  points; the two agree on all characters below U+10000, which covers the
  character classes used by the source regexes.
* The network is modelled as a pure lookup: a fetch of rows by identifier
  becomes a function from identifier to an optional row, and a paginated fetch
  becomes a function from offset to the returned page.
* JavaScript regular expressions are hand-compiled to explicit scanning
  functions.  Greedy/lazy quantifiers and alternation are implemented with the
  same backtracking order the JS engine uses (leftmost alternative first,
  greedy = longest first, lazy = shortest first); where a quantifier cannot
  backtrack because its character class is disjoint from what follows, the
  scan takes the maximal run directly, mirroring the unique successful path.
-/

set_option maxRecDepth 4096

/-! ## Character-level helpers shared by the embedded modules -/

/-- JavaScript `\s` (and `String.prototype.trim`) character class:
WhiteSpace ∪ LineTerminator of the ECMAScript spec. -/
def isJsWs (c : Char) : Bool :=
  let n := c.toNat
  n = 0x20 || n = 0x09 || n = 0x0a || n = 0x0b || n = 0x0c || n = 0x0d ||
  n = 0xa0 || n = 0x1680 || (0x2000 ≤ n && n ≤ 0x200a) || n = 0x2028 ||
  n = 0x2029 || n = 0x202f || n = 0x205f || n = 0x3000 || n = 0xfeff

/-- JavaScript `toLowerCase`, restricted to the alphabets the source data uses:
ASCII plus the Lithuanian letters Ą Č Ę Ė Į Š Ų Ū Ž. -/
def toLowerCh (c : Char) : Char :=
  if 'A' ≤ c && c ≤ 'Z' then Char.ofNat (c.toNat + 32)
  else if c = 'Ą' then 'ą' else if c = 'Č' then 'č' else if c = 'Ę' then 'ę'
  else if c = 'Ė' then 'ė' else if c = 'Į' then 'į' else if c = 'Š' then 'š'
  else if c = 'Ų' then 'ų' else if c = 'Ū' then 'ū' else if c = 'Ž' then 'ž'
  else c

/-- JavaScript `String.prototype.trim` on a character list. -/
def jsTrim (l : List Char) : List Char :=
  ((l.dropWhile isJsWs).reverse.dropWhile isJsWs).reverse

def isDigitCh (c : Char) : Bool := '0' ≤ c && c ≤ '9'

/-- The `[0-9A-Za-z-]` regex class. -/
def isWordish (c : Char) : Bool :=
  isDigitCh c || ('a' ≤ c && c ≤ 'z') || ('A' ≤ c && c ≤ 'Z') || c = '-'

/-- The `[IVXLCDM]` class under the `i` flag. -/
def isRoman (c : Char) : Bool :=
  c = 'I' || c = 'V' || c = 'X' || c = 'L' || c = 'C' || c = 'D' || c = 'M' ||
  c = 'i' || c = 'v' || c = 'x' || c = 'l' || c = 'c' || c = 'd' || c = 'm'

/-- Case-insensitive "starts with" (the needle is given in lowercase). -/
def ciStartsWith (needle : List Char) (hay : List Char) : Bool :=
  match needle, hay with
  | [], _ => true
  | _ :: _, [] => false
  | n :: ns, h :: hs => (toLowerCh h = n) && ciStartsWith ns hs

/-- Case-insensitive full equality (the needle is given in lowercase). -/
def ciEq (needle : List Char) (hay : List Char) : Bool :=
  hay.map toLowerCh = needle

/-- Substring test (used for the definition-trigger keyword search). -/
def containsSub (needle : List Char) : List Char → Bool
  | [] => needle.isEmpty
  | h :: hs => needle.isPrefixOf (h :: hs) || containsSub needle hs

/-- `String.prototype.split('\n')`. -/
def splitLines (l : List Char) : List (List Char) :=
  match l with
  | [] => [[]]
  | '\n' :: rest => [] :: splitLines rest
  | c :: rest =>
    match splitLines rest with
    | [] => [[c]]
    | line :: more => (c :: line) :: more

/-- `Array.prototype.join('\n')`. -/
def joinLines : List (List Char) → List Char
  | [] => []
  | [l] => l
  | l :: rest => l ++ '\n' :: joinLines rest

/-! ## Fetch client (`src/scripts/lib/fetcher.ts`) -/

/-- `DocumentRecord` of `fetcher.ts` (optional fields as `Option`). -/
structure DocumentRecord where
  dokumento_id : String
  pavadinimas : String
  nuoroda : String
  atv_dok_nr : Option String
  galioj_busena : Option String
  rusis : Option String
  priimtas : Option String
  isigalioja : Option String
  tekstas_lt : Option String
deriving DecidableEq, Repr

/-- `EditionRecord` of `fetcher.ts`. -/
structure EditionRecord where
  dokumento_id : String
  suvestines_id : String
  nuoroda : String
  galioja_nuo : String
  galioja_iki : Option String
deriving DecidableEq, Repr

/-- `EditionTextRecord extends EditionRecord`. -/
structure EditionTextRecord extends EditionRecord where
  tekstas_lt : Option String
deriving DecidableEq, Repr

/-- One HTTP response as `fetchJson` observes it: `response.ok`,
`response.status`, and the `_data` member of the JSON envelope (absent
member modelled as `none`). -/
structure HttpResponse (α : Type) where
  ok : Bool
  status : Nat
  data : Option (List α)

/-- The retry loop of `fetchJson`.  The network is a function from attempt
number to the response of that attempt; `remaining` is the number of loop
iterations still allowed by `attempt <= maxRetries` (4 at the top call, so the
fuel-exhausted branch is the unreachable `Failed to fetch` throw after the
loop).  Errors are `Except.error` carrying the thrown message.  The second
component of the result accumulates the backoff sleeps `(attempt + 1) * 1500`
performed between attempts (the rate-limiter sleep is timing, not data, and is
not modelled). -/
def fetchJsonGo (net : Nat → HttpResponse α) (url : String) :
    Nat → Nat → List Nat → Except String (List α) × List Nat
  | 0, _, sleeps => (.error ("Failed to fetch " ++ url), sleeps)
  | remaining + 1, attempt, sleeps =>
    let r := net attempt
    if r.ok then (.ok (r.data.getD []), sleeps)
    else if (r.status = 429 ∨ 500 ≤ r.status) ∧ attempt < 3 then
      fetchJsonGo net url remaining (attempt + 1) (sleeps ++ [(attempt + 1) * 1500])
    else (.error ("HTTP " ++ toString r.status ++ " while fetching " ++ url), sleeps)

/-- `fetchJson` with `maxRetries = 3`: the loop runs attempts 0..3. -/
def fetchJson (net : Nat → HttpResponse α) (url : String) :
    Except String (List α) × List Nat :=
  fetchJsonGo net url 4 0 []

/-- `quote`: single-quote a value, doubling embedded single quotes. -/
def quote (value : String) : String :=
  String.mk ('\'' :: (value.data.flatMap fun c =>
    if c = '\'' then ['\'', '\''] else [c]) ++ ['\''])

/-- `makeOrExpression`: throws on an empty values list. -/
def makeOrExpression (field : String) (values : List String) : Except String String :=
  if values.length = 0 then
    .error ("Cannot build OR expression for empty values list: " ++ field)
  else
    .ok (String.intercalate "|" (values.map fun v => field ++ "=" ++ quote v))

/-- The pagination loop of `fetchAllRows`.  `page` models the upstream
endpoint: the rows returned for a given offset (the query parameters other
than the offset are fixed for one call and folded into `page`).  The loop
terminates because `offset` grows by `pageSize > 0` each iteration and the
guard throws once `offset > 2_000_000`. -/
def fetchAllRowsGo (page : Nat → List α) (model : String) (pageSize : Nat)
    (hps : 0 < pageSize) (offset : Nat) (out : List α) : Except String (List α) :=
  let rows := page offset
  if rows.length < pageSize then .ok (out ++ rows)
  else
    let offset' := offset + pageSize
    if 2000000 < offset' then .error ("Pagination safety stop reached for " ++ model)
    else fetchAllRowsGo page model pageSize hps offset' (out ++ rows)
termination_by 2000001 - offset
decreasing_by
  have : offset < offset + pageSize := Nat.lt_add_of_pos_right hps
  omega

/-- `fetchAllRows` starts at offset 0 with an empty accumulator. -/
def fetchAllRows (page : Nat → List α) (model : String) (pageSize : Nat)
    (hps : 0 < pageSize) : Except String (List α) :=
  fetchAllRowsGo page model pageSize hps 0 []

/-- `fetchDocumentTextsByIds`: early return on an empty id list, otherwise the
OR filter expression is built (it configures the request URL; in the model the
filtered endpoint is `page`) and all rows are paged in with page size 5000. -/
def fetchDocumentTextsByIds (page : Nat → List DocumentRecord)
    (documentIds : List String) : Except String (List DocumentRecord) :=
  if documentIds.length = 0 then .ok []
  else
    match makeOrExpression "dokumento_id" documentIds with
    | .error e => .error e
    | .ok _filterExpr => fetchAllRows page "Dokumentas" 5000 (by decide)

/-- `fetchSuvestineMetadataByDocumentIds` (page size 10000). -/
def fetchSuvestineMetadataByDocumentIds (page : Nat → List EditionRecord)
    (documentIds : List String) : Except String (List EditionRecord) :=
  if documentIds.length = 0 then .ok []
  else
    match makeOrExpression "dokumento_id" documentIds with
    | .error e => .error e
    | .ok _filterExpr => fetchAllRows page "Suvestine" 10000 (by decide)

/-- `fetchSuvestineTextsByIds` (page size 5000). -/
def fetchSuvestineTextsByIds (page : Nat → List EditionTextRecord)
    (suvestineIds : List String) : Except String (List EditionTextRecord) :=
  if suvestineIds.length = 0 then .ok []
  else
    match makeOrExpression "suvestines_id" suvestineIds with
    | .error e => .error e
    | .ok _filterExpr => fetchAllRows page "Suvestine" 5000 (by decide)

/-! ## Ingestion helpers (`src/scripts/ingest.ts`) -/

/-- `chunkArray`: fixed-size slices.  The source `for` loop steps by
`chunkSize`; it would not terminate for `chunkSize = 0`, and every call site
validates the chunk size to be positive, so the model returns `[]` in that
(unreachable) case.  `go` carries the list length as structurally decreasing
fuel so that the definition reduces in the kernel; the fuel never runs out
because every step drops at least one element. -/
def chunkArrayGo (chunkSize : Nat) : Nat → List α → List (List α)
  | _, [] => []
  | 0, _ :: _ => []
  | fuel + 1, c :: rest =>
    (c :: rest).take chunkSize :: chunkArrayGo chunkSize fuel ((c :: rest).drop chunkSize)

def chunkArray (items : List α) (chunkSize : Nat) : List (List α) :=
  if chunkSize = 0 then [] else chunkArrayGo chunkSize items.length items

/-- The `SourceModel` union type of `ingest.ts`. -/
inductive SourceModel where
  | Suvestine
  | Dokumentas
deriving DecidableEq, Repr

/-- `SelectedSource` of `ingest.ts`. -/
structure SelectedSource where
  sourceModel : SourceModel
  sourceUrl : String
  text : String
  edition : Option EditionRecord
deriving DecidableEq, Repr

/-- The trimmed-string form of `jsTrim`, for `row?.tekstas_lt?.trim()`. -/
def jsTrimStr (s : String) : String := String.mk (jsTrim s.data)

/-! ### Edition resolver (`resolveSuvestineSources`)

The per-document edition lists are a function `editionsByDoc` (the source's
`Map.get(docId) ?? []` is folded into the function).  The network is
`db : String → Option EditionTextRecord`: the row a text fetch returns for a
requested edition id.  `fetchSuvestineTextsByIds` over a chunk of ids is
therefore `chunk.filterMap db`; a chunk produced from a non-empty id list is
non-empty, so its empty-list error path cannot fire inside a round. -/

/-- Round-`round` candidates: for each still-unresolved document, its edition
at list position `round`, if any (`const candidate = list[round]`). -/
def roundCandidates (editionsByDoc : String → List EditionRecord) (round : Nat)
    (unresolved : List String) : List (String × EditionRecord) :=
  unresolved.filterMap fun docId =>
    ((editionsByDoc docId).get? round).map fun e => (docId, e)

/-- Documents parked as `roundExhausted`: no candidate at position `round`. -/
def roundExhaustedDocs (editionsByDoc : String → List EditionRecord) (round : Nat)
    (unresolved : List String) : List String :=
  unresolved.filter fun docId => ((editionsByDoc docId).get? round).isNone

/-- The `textBySuvestine` map of one round: candidate edition ids are
deduplicated (`new Set`, keeping first occurrences), chunked, fetched, and the
rows are inserted keyed by `suvestines_id` (a later row overwrites an earlier
one, so lookups read the most recent insertion). -/
def roundTextMap (db : String → Option EditionTextRecord) (chunkTexts : Nat)
    (cands : List (String × EditionRecord)) : List (String × EditionTextRecord) :=
  let suvestineIds := (cands.map fun c => c.2.suvestines_id).foldl
    (fun acc x => if acc.contains x then acc else acc ++ [x]) []
  let rows := (chunkArray suvestineIds chunkTexts).flatMap fun chunk => chunk.filterMap db
  rows.foldl (fun m row => (row.suvestines_id, row) :: m) []

/-- `row?.tekstas_lt?.trim() ?? ''` for a candidate edition. -/
def candText (m : List (String × EditionTextRecord)) (e : EditionRecord) : String :=
  (((m.lookup e.suvestines_id).bind fun r => r.tekstas_lt).map jsTrimStr).getD ""

/-- `row?.nuoroda ?? edition.nuoroda`. -/
def candUrl (m : List (String × EditionTextRecord)) (e : EditionRecord) : String :=
  ((m.lookup e.suvestines_id).map fun r => r.nuoroda).getD e.nuoroda

/-- One resolution round: the newly selected `(docId, source)` pairs and the
`nextUnresolved` list.  The source's single pass over `candidates` contributes
each document to exactly one of the two outputs, so it is split into two
passes; `roundExhausted` documents are appended after the candidate loop, as
in the source. -/
def resolveRound (editionsByDoc : String → List EditionRecord)
    (db : String → Option EditionTextRecord) (chunkTexts : Nat) (round : Nat)
    (unresolved : List String) : List (String × SelectedSource) × List String :=
  let cands := roundCandidates editionsByDoc round unresolved
  let m := roundTextMap db chunkTexts cands
  let newlySelected := cands.filterMap fun c =>
    if 0 < (candText m c.2).length then
      some (c.1, { sourceModel := SourceModel.Suvestine, sourceUrl := candUrl m c.2,
                   text := candText m c.2, edition := some c.2 })
    else none
  let carried := (cands.filterMap fun c =>
      if 0 < (candText m c.2).length then none
      else if round + 1 < (editionsByDoc c.1).length then some c.1 else none) ++
    (roundExhaustedDocs editionsByDoc round unresolved).filter
      (fun docId => round + 1 < (editionsByDoc docId).length)
  (newlySelected, carried)

/-- The `while (unresolved.length > 0 && round < maxRounds)` loop.
`remaining = maxRounds - round` is the structural fuel.  The loop breaks early
when the round has no candidates at all (`if (candidates.size === 0) break`),
which is checked before the round's fetches. -/
def resolveLoop (editionsByDoc : String → List EditionRecord)
    (db : String → Option EditionTextRecord) (chunkTexts : Nat) :
    Nat → Nat → List String → List (String × SelectedSource) →
    List (String × SelectedSource)
  | 0, _, _, selected => selected
  | remaining + 1, round, unresolved, selected =>
    if unresolved.isEmpty then selected
    else if (roundCandidates editionsByDoc round unresolved).isEmpty then selected
    else
      let (newSel, next) := resolveRound editionsByDoc db chunkTexts round unresolved
      resolveLoop editionsByDoc db chunkTexts remaining (round + 1) next (selected ++ newSel)

/-- `resolveSuvestineSources`: documents with at least one edition enter the
round loop; everything never selected (including documents with no editions)
is returned as unresolved for the Dokumentas fallback. -/
def resolveSuvestineSources (editionsByDoc : String → List EditionRecord)
    (db : String → Option EditionTextRecord) (chunkTexts maxRounds : Nat)
    (docs : List String) : List (String × SelectedSource) × List String :=
  let initiallyResolvable := docs.filter fun docId => 0 < (editionsByDoc docId).length
  let selected := resolveLoop editionsByDoc db chunkTexts maxRounds 0 initiallyResolvable []
  (selected, docs.filter fun docId => (selected.lookup docId).isNone)

/-- The status enum of the seed record. -/
inductive LawStatus where
  | in_force
  | amended
  | repealed
  | not_yet_in_force
deriving DecidableEq, Repr

/-- `mapStatus` of `ingest.ts`: `(value ?? '').trim().toLowerCase()`, then
`galioja → in_force`, `negalioja → repealed`, default `in_force`. -/
def mapStatus (value : Option (List Char)) : LawStatus :=
  let normalized := (jsTrim (value.getD [])).map toLowerCh
  if normalized = "galioja".data then LawStatus.in_force
  else if normalized = "negalioja".data then LawStatus.repealed
  else LawStatus.in_force

/-- The `totals`/`source_usage` part of a prior `_ingestion-summary.json`, as
`main` reads it back: every level may be absent, and an absent or non-numeric
count coerces to 0 via `Number(...) || 0`. -/
structure PriorSourceUsage where
  suvestine : Option Nat
  dokumentas_fallback : Option Nat
deriving DecidableEq, Repr

structure PriorTotals where
  provisions : Option Nat
  definitions : Option Nat
deriving DecidableEq, Repr

structure PriorSummary where
  source_usage : Option PriorSourceUsage
  totals : Option PriorTotals
deriving DecidableEq, Repr

/-- The merged numeric counters of the summary `main` writes. -/
structure MergedCounts where
  suvestine : Nat
  dokumentas_fallback : Nat
  provisions : Nat
  definitions : Nat
deriving DecidableEq, Repr

/-- The summary-merge expressions of `main`
(`(Number(previousSummary?.totals && (...).provisions) || 0) + totalProvisions`
and the three analogous ones): each prior count defaults to 0 when the prior
summary, the nested object, or the field is absent, and the current run's
count is added. -/
def mergeSummaryCounts (previousSummary : Option PriorSummary)
    (suvestineUsed dokumentasUsed totalProvisions totalDefinitions : Nat) :
    MergedCounts :=
  { suvestine :=
      (((previousSummary.bind fun s => s.source_usage).bind fun u => u.suvestine).getD 0) +
        suvestineUsed
    dokumentas_fallback :=
      (((previousSummary.bind fun s => s.source_usage).bind fun u => u.dokumentas_fallback).getD 0) +
        dokumentasUsed
    provisions :=
      (((previousSummary.bind fun s => s.totals).bind fun t => t.provisions).getD 0) +
        totalProvisions
    definitions :=
      (((previousSummary.bind fun s => s.totals).bind fun t => t.definitions).getD 0) +
        totalDefinitions }

/-! ## Document segmenter (`src/scripts/lib/parser.ts`)

Input text is modelled as `List Char`.  Each JS regex is hand-compiled; where
a greedy run is followed by a character class disjoint from the run's class,
the unique successful backtracking path is the maximal run, and the scan takes
it directly (noted per function). -/

/-- `ParsedProvision` (`section` is a Lean keyword, renamed `sectionLabel`). -/
structure ParsedProvision where
  provision_ref : List Char
  chapter : Option (List Char)
  sectionLabel : List Char
  title : List Char
  content : List Char
deriving DecidableEq, Repr

/-- `ParsedDefinition`. -/
structure ParsedDefinition where
  term : List Char
  definition : List Char
  source_provision : Option (List Char)
deriving DecidableEq, Repr

/-- `ParseResult`. -/
structure ParseResult where
  provisions : List ParsedProvision
  definitions : List ParsedDefinition
deriving DecidableEq, Repr

/-- `ArticleMarker` (field `section` renamed `sectionLabel`). -/
structure ArticleMarker where
  sectionLabel : List Char
  titleTail : List Char
  index : Nat
  matchLength : Nat
deriving DecidableEq, Repr

/-- `ChapterMarker`. -/
structure ChapterMarker where
  index : Nat
  label : List Char
deriving DecidableEq, Repr

/-- `normalizeInput`, step 1: `replace(/\r\n/g, '\n')` (left-to-right,
non-overlapping). -/
def normCRLF : List Char → List Char
  | [] => []
  | '\r' :: '\n' :: rest => '\n' :: normCRLF rest
  | c :: rest => c :: normCRLF rest

/-- `normalizeInput`: CRLF, then `\r → \n`, NBSP and tab to space, zero-width
space removed. -/
def normalizeInput (t : List Char) : List Char :=
  ((normCRLF t).map fun c =>
    if c = '\r' then '\n'
    else if c = '\u00A0' then ' '
    else if c = '\t' then ' '
    else c).filter fun c => c ≠ '\u200B'

/-- Does `/\nPakeitimai:\s*\n/i` match starting at the head of `l`?  The
greedy `\s*` before the final `\n` backtracks until a `\n` is available;
since `\n` is itself whitespace, the pattern matches exactly when the maximal
whitespace run after the colon contains a `\n`. -/
def pakeitimaiHereQ (l : List Char) : Bool :=
  match l with
  | '\n' :: rest =>
    ciStartsWith "pakeitimai:".data rest && ((rest.drop 11).takeWhile isJsWs).contains '\n'
  | _ => false

/-- `text.search(/\nPakeitimai:\s*\n/i)`: index of the first match start. -/
def searchPakeitimai : List Char → Option Nat
  | [] => none
  | c :: rest =>
    if pakeitimaiHereQ (c :: rest) then some 0
    else (searchPakeitimai rest).map (· + 1)

/-- `trimTrailingSections`. -/
def trimTrailingSections (t : List Char) : List Char :=
  match searchPakeitimai t with
  | some i => t.take i
  | none => t

/-- Body of `FIRST_ARTICLE_HEADING` = `/^\s*\d+[0-9A-Za-z-]*\s+straipsnis\./im`
after the `^` anchor: `\s*`, digits, `[0-9A-Za-z-]*`, `\s+`, literal
`straipsnis.` (case-insensitive).  Every quantified class is disjoint from
what follows it (whitespace/digit, wordish/whitespace, whitespace/letter), so
the maximal runs are the only possible match. -/
def firstHeadQ (l : List Char) : Bool :=
  let l1 := l.dropWhile isJsWs
  let ds := l1.takeWhile isDigitCh
  if ds.isEmpty then false
  else
    let l2 := (l1.drop ds.length).dropWhile isWordish
    let ws := l2.takeWhile isJsWs
    if ws.isEmpty then false else ciStartsWith "straipsnis.".data (l2.drop ws.length)

/-- `normalized.search(FIRST_ARTICLE_HEADING)`: first index at a line start
(`m` flag: position 0 or right after a `\n`) where the body matches. -/
def firstArticleSearch : List Char → Bool → Nat → Option Nat
  | [], _, _ => none
  | c :: rest, atLineStart, i =>
    if atLineStart && firstHeadQ (c :: rest) then some i
    else firstArticleSearch rest (c = '\n') (i + 1)

/-- `/^\d+[0-9A-Za-z-]*\s+straipsnis\./i.test(line)` (no `m` flag; the tested
line contains no `\n`, so `^` is the start of the line). -/
def articleLineQ (l : List Char) : Bool :=
  let ds := l.takeWhile isDigitCh
  if ds.isEmpty then false
  else
    let l2 := (l.drop ds.length).dropWhile isWordish
    let ws := l2.takeWhile isJsWs
    if ws.isEmpty then false else ciStartsWith "straipsnis.".data (l2.drop ws.length)

/-- `/^[IVXLCDM]+\s+SKYRIUS$/i.test(line)`: Roman-letter run, whitespace,
exactly `SKYRIUS` to the end (all case-insensitive; classes disjoint, so
maximal runs decide the match). -/
def isChapterLineQ (l : List Char) : Bool :=
  let rs := l.takeWhile isRoman
  if rs.isEmpty then false
  else
    let l2 := l.drop rs.length
    let ws := l2.takeWhile isJsWs
    if ws.isEmpty then false else ciEq "skyrius".data (l2.drop ws.length)

/-- The subtitle lookahead of `parseChapterMarkers`: up to 4 following lines
(`j < min(lines.length, i + 5)`), skipping blank ones, stopping empty-handed
at an article heading or another chapter heading. -/
def subtitleGo : List (List Char) → Nat → List Char
  | _, 0 => []
  | [], _ => []
  | lj :: rest, b + 1 =>
    let candidate := jsTrim lj
    if candidate.isEmpty then subtitleGo rest b
    else if articleLineQ candidate then []
    else if isChapterLineQ candidate then []
    else candidate

/-- The line loop of `parseChapterMarkers`; `offset` advances by
`lines[i].length + 1` per line. -/
def parseChaptersGo : List (List Char) → Nat → List ChapterMarker
  | [], _ => []
  | line :: rest, offset =>
    let tl := jsTrim line
    if isChapterLineQ tl then
      let subtitle := subtitleGo rest 4
      ⟨offset, if subtitle.isEmpty then tl else tl ++ ' ' :: subtitle⟩ ::
        parseChaptersGo rest (offset + line.length + 1)
    else parseChaptersGo rest (offset + line.length + 1)

/-- `parseChapterMarkers`. -/
def parseChapterMarkers (t : List Char) : List ChapterMarker :=
  parseChaptersGo (splitLines t) 0

/-- The loop body of `chapterForIndex` with its `current` accumulator
(`if (chapter.index > index) break; current = chapter.label`). -/
def chapterForIndexGo (index : Nat) : Option (List Char) → List ChapterMarker → Option (List Char)
  | cur, [] => cur
  | cur, ch :: rest =>
    if index < ch.index then cur else chapterForIndexGo index (some ch.label) rest

/-- `chapterForIndex`. -/
def chapterForIndex (chapters : List ChapterMarker) (index : Nat) : Option (List Char) :=
  chapterForIndexGo index none chapters

/-- Body of `ARTICLE_HEADING` =
`/(^|\n)\s*(\d+[0-9A-Za-z-]*)\s+straipsnis\.\s*([^\n]*)/gim` after the
group-1 alternation: returns `(group2, group3, consumed length)`.  The final
`\s*` is greedy and may cross newlines, after which `([^\n]*)` takes the rest
of that line; both admit the empty match, so the greedy maximal runs are the
JS match. -/
def articleBodyMatch (l : List Char) : Option (List Char × List Char × Nat) :=
  let ws0 := l.takeWhile isJsWs
  let l1 := l.drop ws0.length
  let ds := l1.takeWhile isDigitCh
  if ds.isEmpty then none
  else
    let sec := ds ++ (l1.drop ds.length).takeWhile isWordish
    let l2 := l1.drop sec.length
    let ws1 := l2.takeWhile isJsWs
    if ws1.isEmpty then none
    else
      let l3 := l2.drop ws1.length
      if ciStartsWith "straipsnis.".data l3 then
        let l4 := l3.drop 11
        let ws2 := l4.takeWhile isJsWs
        let title := (l4.drop ws2.length).takeWhile fun c => c ≠ '\n'
        some (sec, title,
          ws0.length + sec.length + ws1.length + 11 + ws2.length + title.length)
      else none

/-- One attempt of `ARTICLE_HEADING` at a position: the `(^|\n)` alternation
tries `^` first (valid at position 0 or right after a `\n`, because of the
`m` flag), then a literal `\n`.  Returns
`(group1 length, group2, group3, body length)`. -/
def articleMatchAt (l : List Char) (atLineStart : Bool) :
    Option (Nat × List Char × List Char × Nat) :=
  match (if atLineStart then articleBodyMatch l else none) with
  | some (sec, title, bodyLen) => some (0, sec, title, bodyLen)
  | none =>
    match l with
    | '\n' :: rest =>
      (articleBodyMatch rest).map fun r => (1, r.1, r.2.1, r.2.2)
    | _ => none

/-- The `exec` loop of `collectArticleMarkers`: scan position by position from
`lastIndex`; on a match, record the marker (`index` skips the consumed
group 1, `matchLength` excludes it) and resume after the whole match.  `fuel`
is the suffix length; a match consumes at least one character, so fuel never
runs out before the text does. -/
def collectGo : Nat → List Char → Bool → Nat → List ArticleMarker
  | 0, _, _, _ => []
  | fuel + 1, l, atLineStart, i =>
    match articleMatchAt l atLineStart with
    | some (g1len, sec, title, bodyLen) =>
      let fullLen := g1len + bodyLen
      ⟨jsTrim sec, jsTrim title, i + g1len, bodyLen⟩ ::
        collectGo fuel (l.drop fullLen) ((l.take fullLen).getLast? = some '\n') (i + fullLen)
    | none =>
      match l with
      | [] => []
      | c :: rest => collectGo fuel rest (c = '\n') (i + 1)

/-- `collectArticleMarkers` with the module-level `lastIndex` state of the
global `ARTICLE_HEADING` regex made explicit: scanning starts at the incoming
`lastIndex` (`^` there consults the previous character), and the loop always
ends with `exec` returning `null`, which resets `lastIndex` to 0. -/
def collectArticleMarkersSt (t : List Char) (lastIndex : Nat) :
    List ArticleMarker × Nat :=
  if lastIndex ≤ t.length then
    (collectGo (t.length - lastIndex) (t.drop lastIndex)
      (lastIndex == 0 || t[lastIndex - 1]? == some '\n') lastIndex, 0)
  else ([], 0)

/-- `sanitizeSection`: `replace(/\s+/g, '')`. -/
def sanitizeSection (sec : List Char) : List Char :=
  sec.filter fun c => !isJsWs c

/-- `makeProvisionRef`: lowercase, strip everything outside `[0-9a-z-]`,
prefix `art`. -/
def refKeep (c : Char) : Bool :=
  isDigitCh c || ('a' ≤ c && c ≤ 'z') || c = '-'

/-- The normalisation part of `makeProvisionRef` (shared with the collision
analysis): `section.toLowerCase().replace(/[^0-9a-z-]/g, '')`. -/
def normalizeSectionKey (sec : List Char) : List Char :=
  (sec.map toLowerCh).filter refKeep

def makeProvisionRef (sec : List Char) : List Char :=
  "art".data ++ normalizeSectionKey sec

/-- The line loop of `cleanContent` with its `prevBlank` flag. -/
def cleanGo : List (List Char) → Bool → List (List Char)
  | [], _ => []
  | l :: rest, prevBlank =>
    let trimmed := jsTrim l
    if trimmed.isEmpty then
      if prevBlank then cleanGo rest true else [] :: cleanGo rest true
    else trimmed :: cleanGo rest false

/-- `cleanContent`. -/
def cleanContent (raw : List Char) : List Char :=
  jsTrim (joinLines (cleanGo (splitLines raw) false))

/-- `/^\d+[.)]/.test(first)`. -/
def startsNumberedQ (l : List Char) : Bool :=
  let ds := l.takeWhile isDigitCh
  if ds.isEmpty then false
  else
    match l.drop ds.length with
    | c :: _ => c = '.' || c = ')'
    | [] => false

/-- `/^(SKIRSNIS|SKYRIUS|POSKYRIS)$/i.test(first)`. -/
def sectionWordQ (l : List Char) : Bool :=
  ciEq "skirsnis".data l || ciEq "skyrius".data l || ciEq "poskyris".data l

/-- `maybePromoteFirstLineAsTitle`. -/
def maybePromoteFirstLineAsTitle (titleTail content : List Char) :
    List Char × List Char :=
  if !titleTail.isEmpty then (titleTail, content)
  else
    let lines := splitLines content
    let first := jsTrim (lines.headD [])
    if first.isEmpty then (titleTail, content)
    else if 180 < first.length then (titleTail, content)
    else if startsNumberedQ first then (titleTail, content)
    else if sectionWordQ first then (titleTail, content)
    else (first, jsTrim (joinLines (lines.drop 1)))

/-- The `/sąvok|apibrėž|šiame įstatyme vartojam/i` trigger test. -/
def triggerQ (tc : List Char) : Bool :=
  let low := tc.map toLowerCh
  containsSub "sąvok".data low || containsSub "apibrėž".data low ||
    containsSub "šiame įstatyme vartojam".data low

/-! ### The numbered-definition pattern

`/(?:^|\n)\s*\d+\.\s*([^\n–—-]{2,140}?)\s*[–—-]\s*([^\n].+?)(?=(?:\n\s*\d+\.\s*[^\n–—-]{2,140}?\s*[–—-])|$)/gs`

Backtracking order follows the JS engine: the `\s*` before group 1 is greedy
(tried longest first; it can matter, because group 1's class contains the
space), group 1 is lazy (shortest first), the `\s*` runs before each dash
cannot backtrack usefully (a dash is not whitespace), the `\s*` after the
dash is greedy, and group 2 is lazy, extended until the lookahead holds. -/

/-- Group 1 class `[^\n–—-]`. -/
def g1Class (c : Char) : Bool :=
  c ≠ '\n' && c ≠ '–' && c ≠ '—' && c ≠ '-'

/-- The `[–—-]` class. -/
def isDashCh (c : Char) : Bool :=
  c = '–' || c = '—' || c = '-'

/-- One candidate term length `k` inside the lookahead's
`[^\n–—-]{2,140}?\s*[–—-]` tail: `k` chars of the class, maximal whitespace,
then a dash. -/
def headTermAtQ (m : List Char) (k : Nat) : Bool :=
  k ≤ m.length && (m.take k).all g1Class &&
    (match (m.drop k).dropWhile isJsWs with
     | c :: _ => isDashCh c
     | [] => false)

/-- Lazy `{2,140}` search for the lookahead (existence over k = 2..140). -/
def headTermKQ (m : List Char) : Nat → Nat → Bool
  | k, 0 => headTermAtQ m k
  | k, b + 1 => headTermAtQ m k || headTermKQ m (k + 1) b

/-- Greedy outer `\s*` (ws1 from maximal down to 0) for the lookahead. -/
def headTermSearchQ (l3 : List Char) : Nat → Bool
  | 0 => headTermKQ l3 2 138
  | w + 1 => headTermKQ (l3.drop (w + 1)) 2 138 || headTermSearchQ l3 w

/-- The lookahead's inner pattern `\s*\d+\.\s*[^\n–—-]{2,140}?\s*[–—-]` as a
match-success test from the head of `s`. -/
def defHeadQ (s : List Char) : Bool :=
  let l1 := s.dropWhile isJsWs
  let ds := l1.takeWhile isDigitCh
  if ds.isEmpty then false
  else
    match l1.drop ds.length with
    | '.' :: l3 => headTermSearchQ l3 (l3.takeWhile isJsWs).length
    | _ => false

/-- The full lookahead `(?=(?:\n\s*\d+\.\s*[^\n–—-]{2,140}?\s*[–—-])|$)` at a
suffix (`$` without the `m` flag is the end of the input). -/
def lookNumQ (s : List Char) : Bool :=
  match s with
  | [] => true
  | '\n' :: s2 => defHeadQ s2
  | _ => false

/-- Lazy group 2 `([^\n].+?)` with the `s` flag: total length from 2 upward,
first length whose following suffix satisfies the lookahead.  Returns
`(group2, rest-of-input after the match)`. -/
def g2Lazy (r : List Char) : Nat → Nat → Option (List Char × List Char)
  | g2len, 0 =>
    if g2len ≤ r.length && lookNumQ (r.drop g2len) then some (r.take g2len, r.drop g2len)
    else none
  | g2len, b + 1 =>
    if g2len ≤ r.length && lookNumQ (r.drop g2len) then some (r.take g2len, r.drop g2len)
    else g2Lazy r (g2len + 1) b

/-- One choice of the greedy `\s*` after the dash: the char after it must not
be `\n` (group 2's first char), then group 2 is extended lazily. -/
def numTailAt (m : List Char) (ws2 : Nat) : Option (List Char × List Char) :=
  match m.drop ws2 with
  | c :: rest1 =>
    if c ≠ '\n' then g2Lazy (c :: rest1) 2 (c :: rest1).length else none
  | [] => none

/-- Greedy `\s*` after the dash, longest first. -/
def numTailWs (m : List Char) : Nat → Option (List Char × List Char)
  | 0 => numTailAt m 0
  | w + 1 =>
    match numTailAt m (w + 1) with
    | some r => some r
    | none => numTailWs m w

/-- One candidate term length `k` for group 1: `k` class chars, maximal
whitespace (a dash is not whitespace, so the inner `\s*` cannot usefully
backtrack), a dash, then the tail after the dash. -/
def numTermAt (m : List Char) (k : Nat) : Option (List Char × List Char × List Char) :=
  if k ≤ m.length && (m.take k).all g1Class then
    match (m.drop k).dropWhile isJsWs with
    | c :: afterDash =>
      if isDashCh c then
        match numTailWs afterDash (afterDash.takeWhile isJsWs).length with
        | some (g2, rest) => some (m.take k, g2, rest)
        | none => none
      else none
    | [] => none
  else none

/-- Lazy `{2,140}?` for group 1: k = 2..140, shortest first. -/
def numTermK (m : List Char) : Nat → Nat → Option (List Char × List Char × List Char)
  | k, 0 => numTermAt m k
  | k, b + 1 =>
    match numTermAt m k with
    | some r => some r
    | none => numTermK m (k + 1) b

/-- Greedy outer `\s*` after `\d+\.`, longest first. -/
def numTermSearch (l3 : List Char) : Nat → Option (List Char × List Char × List Char)
  | 0 => numTermK l3 2 138
  | w + 1 =>
    match numTermK (l3.drop (w + 1)) 2 138 with
    | some r => some r
    | none => numTermSearch l3 w

/-- Body of the numbered pattern after `(?:^|\n)`: `\s*` (maximal; digits are
not whitespace), `\d+` (maximal; `.` is not a digit), literal `.`, then the
term/dash/definition tail.  Returns `(group1, group2, rest after match)`. -/
def matchNumBody (l : List Char) : Option (List Char × List Char × List Char) :=
  let l1 := l.dropWhile isJsWs
  let ds := l1.takeWhile isDigitCh
  if ds.isEmpty then none
  else
    match l1.drop ds.length with
    | '.' :: l3 => numTermSearch l3 (l3.takeWhile isJsWs).length
    | _ => none

/-- `(?:^|\n)` of the numbered pattern: `^` (no `m` flag) only at position 0,
then a literal `\n`. -/
def numMatchHere (isStart : Bool) (l : List Char) :
    Option (List Char × List Char × List Char) :=
  match (if isStart then matchNumBody l else none) with
  | some r => some r
  | none =>
    match l with
    | '\n' :: rest => matchNumBody rest
    | _ => none

/-- The `exec` loop of the numbered pattern (fresh regex per call, so no
cross-call state): scan forward, emit `(group1, group2)` per match, resume
after each match.  Every match consumes at least one character. -/
def execNumberedGo : Nat → Bool → List Char → List (List Char × List Char)
  | 0, _, _ => []
  | fuel + 1, isStart, l =>
    match numMatchHere isStart l with
    | some (g1, g2, rest) => (g1, g2) :: execNumberedGo fuel false rest
    | none =>
      match l with
      | [] => []
      | _ :: rest => execNumberedGo fuel false rest

/-! ### The quoted-term pattern `/„([^“]{2,140})“\s*[–—-]\s*([^\n]{5,500})/g` -/

/-- Greedy `[^“]{2,140}` followed by the closing `“`: only the distance to the
first `“` can satisfy the closing-quote check, so the greedy descent finds it
or nothing.  Returns `(group1, suffix after the closing quote)`. -/
def quotTermK (r : List Char) : Nat → Option (List Char × List Char)
  | 0 => none
  | k + 1 =>
    if 2 ≤ k + 1 && (r.take (k + 1)).all (fun c => c ≠ '“') && r[k + 1]? == some '“' then
      some (r.take (k + 1), r.drop (k + 2))
    else quotTermK r k

/-- One choice of the greedy `\s*` before group 2, then greedy `[^\n]{5,500}`
(maximal, nothing follows it; needs at least 5). -/
def quotTailAt (m : List Char) (ws2 : Nat) : Option (List Char × List Char) :=
  let r := m.drop ws2
  let t := min 500 (r.takeWhile fun c => c ≠ '\n').length
  if 5 ≤ t then some (r.take t, r.drop t) else none

/-- Greedy `\s*` before group 2, longest first (it matters: group 2's class
contains the space). -/
def quotTail (m : List Char) : Nat → Option (List Char × List Char)
  | 0 => quotTailAt m 0
  | w + 1 =>
    match quotTailAt m (w + 1) with
    | some r => some r
    | none => quotTail m w

/-- One attempt of the quoted pattern at a position: opening `„`, term,
closing `“`, maximal `\s*` (a dash is not whitespace), dash, tail. -/
def quotMatchHere (l : List Char) : Option (List Char × List Char × List Char) :=
  match l with
  | '„' :: r =>
    match quotTermK r (min 140 r.length) with
    | some (g1, m) =>
      match m.dropWhile isJsWs with
      | c :: m2 =>
        if isDashCh c then
          match quotTail m2 (m2.takeWhile isJsWs).length with
          | some (g2, rest) => some (g1, g2, rest)
          | none => none
        else none
      | [] => none
    | none => none
  | _ => none

/-- The `exec` loop of the quoted pattern. -/
def execQuotedGo : Nat → List Char → List (List Char × List Char)
  | 0, _ => []
  | fuel + 1, l =>
    match quotMatchHere l with
    | some (g1, g2, rest) => (g1, g2) :: execQuotedGo fuel rest
    | none =>
      match l with
      | [] => []
      | _ :: rest => execQuotedGo fuel rest

/-- The dedup key `` `${def.term.toLowerCase()}|${def.definition}` ``. -/
def defKey (d : ParsedDefinition) : List Char :=
  d.term.map toLowerCh ++ '|' :: d.definition

/-- The dedup loop of `extractDefinitionsFromProvision` with its `seen` set. -/
def dedupGo : List ParsedDefinition → List (List Char) → List ParsedDefinition
  | [], _ => []
  | d :: rest, seen =>
    if defKey d ∈ seen then dedupGo rest seen
    else d :: dedupGo rest (defKey d :: seen)

/-- Length filter applied to each raw match of either pattern
(`term.length >= 2 && definition.length >= 5` after trimming). -/
def defOfMatch (provisionRef : List Char) (p : List Char × List Char) :
    Option ParsedDefinition :=
  let term := jsTrim p.1
  let df := jsTrim p.2
  if 2 ≤ term.length && 5 ≤ df.length then
    some ⟨term, df, some provisionRef⟩
  else none

/-- `extractDefinitionsFromProvision`: numbered matches, then quoted matches,
then the per-provision dedup by `(lowercased term, exact definition)`. -/
def extractDefinitionsFromProvision (content provisionRef : List Char) :
    List ParsedDefinition :=
  let definitions :=
    (execNumberedGo content.length true content).filterMap (defOfMatch provisionRef) ++
      (execQuotedGo content.length content).filterMap (defOfMatch provisionRef)
  dedupGo definitions []

/-- The per-marker body of the provision loop of `parseLithuanianLawText`,
for one article marker and the offset `stop` where its content ends (the next
marker's index, or the end of the text): slice the content between the end of
this heading's match and `stop`, clean it, maybe promote a title line, and
build the provision — or `none` when the cleaned content is empty
(`if (!content) continue`).  The provision's chapter is
`chapterForIndex chapters m.index`: it is looked up at this marker's own
heading offset. -/
def buildProvision (relevant : List Char) (chapters : List ChapterMarker)
    (m : ArticleMarker) (stop : Nat) : Option ParsedProvision :=
  let start := m.index + m.matchLength
  let content0 := cleanContent ((relevant.drop start).take (stop - start))
  let pr := maybePromoteFirstLineAsTitle m.titleTail content0
  if pr.2.isEmpty then none
  else
    let sec := sanitizeSection m.sectionLabel
    let title :=
      if !pr.1.isEmpty then sec ++ " straipsnis. ".data ++ pr.1
      else sec ++ " straipsnis".data
    some ⟨makeProvisionRef sec, chapterForIndex chapters m.index, sec, title, pr.2⟩

/-- Each article marker paired with the offset where its content stops: the
next marker's index (`next ? next.index : relevant.length`). -/
def markerStops (relevant : List Char) : List ArticleMarker → List (ArticleMarker × Nat)
  | [] => []
  | m :: rest =>
    (m, match rest.head? with
        | some n => n.index
        | none => relevant.length) :: markerStops relevant rest

/-- The per-marker loop of `parseLithuanianLawText`: build each marker's
provision (skipping those whose cleaned content is empty) and, when the
trigger keyword fires on `title\ncontent`, extract its definitions. -/
def buildGo (relevant : List Char) (chapters : List ChapterMarker) :
    List ArticleMarker → List ParsedProvision × List ParsedDefinition
  | [] => ([], [])
  | m :: rest =>
    let stop :=
      match rest.head? with
      | some n => n.index
      | none => relevant.length
    let tail := buildGo relevant chapters rest
    match buildProvision relevant chapters m stop with
    | none => tail
    | some prov =>
      let defs :=
        if triggerQ (prov.title ++ '\n' :: prov.content) then
          extractDefinitionsFromProvision prov.content prov.provision_ref
        else []
      (prov :: tail.1, defs ++ tail.2)

/-- `parseLithuanianLawText` with the module-level `lastIndex` of the global
`ARTICLE_HEADING` regex threaded explicitly.  The early return (no article
heading found) does not touch the regex, so the state passes through
unchanged; otherwise the marker collection leaves it at 0. -/
def parseLithuanianLawTextSt (t : List Char) (lastIndex : Nat) : ParseResult × Nat :=
  let normalized := trimTrailingSections (normalizeInput t)
  match firstArticleSearch normalized true 0 with
  | none => (⟨[], []⟩, lastIndex)
  | some firstArticle =>
    let relevant := normalized.drop firstArticle
    let chapters := parseChapterMarkers relevant
    let st := collectArticleMarkersSt relevant lastIndex
    let built := buildGo relevant chapters st.1
    (⟨built.1, built.2.take 200⟩, st.2)

/-- `parseLithuanianLawText` as invoked from the module's initial regex state. -/
def parseLithuanianLawText (t : List Char) : ParseResult :=
  (parseLithuanianLawTextSt t 0).1

/-- The `relevant` slice of the input (empty when no article heading exists;
in that case the parse result is empty and the value is unused). -/
def relevantText (t : List Char) : List Char :=
  let normalized := trimTrailingSections (normalizeInput t)
  match firstArticleSearch normalized true 0 with
  | none => []
  | some firstArticle => normalized.drop firstArticle

/-- The document-level definitions list before the `slice(0, 200)` cap: the
concatenation, in document order, of the per-provision extractions. -/
def documentRawDefinitions (t : List Char) : List ParsedDefinition :=
  let relevant := relevantText t
  (buildGo relevant (parseChapterMarkers relevant) (collectArticleMarkersSt relevant 0).1).2

/-! ## Claim theorems -/

/-- Claim C9: `mapStatus` maps the upstream in-force code (`galioja`) to
`in_force`, the repealed code (`negalioja`) to `repealed`, and every other or
absent value to `in_force`; it never returns `amended`, `not_yet_in_force`,
or any fourth value. -/
theorem mapStatus_spec :
    (∀ v, mapStatus v = LawStatus.in_force ∨ mapStatus v = LawStatus.repealed) ∧
    mapStatus (some "galioja".data) = LawStatus.in_force ∧
    mapStatus (some "negalioja".data) = LawStatus.repealed ∧
    mapStatus none = LawStatus.in_force ∧
    (∀ v, (jsTrim (v.getD [])).map toLowerCh ≠ "negalioja".data →
      mapStatus v = LawStatus.in_force) := by
  refine ⟨?_, by decide, by decide, by decide, ?_⟩
  · intro v
    by_cases h1 : (jsTrim (v.getD [])).map toLowerCh = "galioja".data
    · exact Or.inl (by simp [mapStatus, h1])
    · by_cases h2 : (jsTrim (v.getD [])).map toLowerCh = "negalioja".data
      · exact Or.inr (by simp [mapStatus, h1, h2])
      · exact Or.inl (by simp [mapStatus, h1, h2])
  · intro v h
    by_cases h1 : (jsTrim (v.getD [])).map toLowerCh = "galioja".data
    · simp [mapStatus, h1]
    · simp [mapStatus, h1, h]

/-- Witness for C9: a status code that is neither `galioja` nor `negalioja`
maps to `in_force`. -/
theorem mapStatus_spec_witness : mapStatus (some " Kita ".data) = LawStatus.in_force :=
  mapStatus_spec.2.2.2.2 (some " Kita ".data) (by decide)

/-- Claim C7: when a run resumes with a prior summary present, the merged
summary's numeric totals are the numeric sums of the prior run's counts and
the current run's counts, for provisions, definitions, and the per-source
usage counts; in particular prior provisions 10 plus current 5 yields 15. -/
theorem mergeSummaryCounts_adds :
    (∀ ps pd pp pf cs cd cp cf : Nat,
      mergeSummaryCounts (some ⟨some ⟨some ps, some pd⟩, some ⟨some pp, some pf⟩⟩)
          cs cd cp cf =
        ⟨ps + cs, pd + cd, pp + cp, pf + cf⟩) ∧
    (mergeSummaryCounts (some ⟨none, some ⟨some 10, none⟩⟩) 0 0 5 0).provisions = 15 := by
  exact ⟨fun ps pd pp pf cs cd cp cf => rfl, by decide⟩

/-- Claim C10: every batched fetch helper returns an empty row list on an
empty identifier list without touching the network or failing, even though
`makeOrExpression` (which builds the filter for the non-empty case) raises an
error on an empty values list. -/
theorem emptyIdFetch_spec :
    (∀ page, fetchDocumentTextsByIds page [] = .ok []) ∧
    (∀ page, fetchSuvestineMetadataByDocumentIds page [] = .ok []) ∧
    (∀ page, fetchSuvestineTextsByIds page [] = .ok []) ∧
    (∀ field, makeOrExpression field [] =
      .error ("Cannot build OR expression for empty values list: " ++ field)) :=
  ⟨fun _ => rfl, fun _ => rfl, fun _ => rfl, fun _ => rfl⟩

/-- Claim C4: pagination stops with all accumulated rows as soon as a page is
short of full; when every page is exactly full it keeps stepping the offset
until the 2,000,000 ceiling is crossed and then raises the fatal
pagination-stop error instead of looping forever. -/
theorem fetchAllRows_spec :
    (∀ (α : Type) (page : Nat → List α) (model : String) (pageSize : Nat)
        (hps : 0 < pageSize) (offset : Nat) (out : List α),
      (page offset).length < pageSize →
      fetchAllRowsGo page model pageSize hps offset out = .ok (out ++ page offset)) ∧
    (∀ (α : Type) (page : Nat → List α) (model : String) (pageSize : Nat)
        (hps : 0 < pageSize) (offset : Nat) (out : List α),
      (∀ o, (page o).length = pageSize) →
      fetchAllRowsGo page model pageSize hps offset out =
        .error ("Pagination safety stop reached for " ++ model)) := by
  constructor
  · intro α page model pageSize hps offset out h
    unfold fetchAllRowsGo
    simp [h]
  · intro α page model pageSize hps offset out hfull
    have main : ∀ n offset (out : List α), 2000001 - offset ≤ n →
        fetchAllRowsGo page model pageSize hps offset out =
          .error ("Pagination safety stop reached for " ++ model) := by
      intro n
      induction n with
      | zero =>
        intro offset out hle
        unfold fetchAllRowsGo
        rw [if_neg (by rw [hfull offset]; exact Nat.lt_irrefl _)]
        rw [if_pos (by omega)]
      | succ n ih =>
        intro offset out hle
        unfold fetchAllRowsGo
        rw [if_neg (by rw [hfull offset]; exact Nat.lt_irrefl _)]
        by_cases hc : 2000000 < offset + pageSize
        · rw [if_pos hc]
        · rw [if_neg hc]
          exact ih (offset + pageSize) (out ++ page offset) (by omega)
    exact main (2000001 - offset) offset out le_rfl

/-- Witness for C4: a short first page returns immediately; constantly full
pages of size 2 end in the pagination-stop error. -/
theorem fetchAllRows_spec_witness :
    fetchAllRowsGo (fun _ => ([] : List Nat)) "Dokumentas" 5000 (by decide) 0 [] = .ok [] ∧
    fetchAllRowsGo (fun _ => [0, 1]) "Suvestine" 2 (by decide) 0 [] =
      .error ("Pagination safety stop reached for " ++ "Suvestine") :=
  ⟨fetchAllRows_spec.1 Nat (fun _ => []) "Dokumentas" 5000 (by decide) 0 [] (by decide),
   fetchAllRows_spec.2 Nat (fun _ => [0, 1]) "Suvestine" 2 (by decide) 0 [] (fun _ => rfl)⟩

/-- Claim C5: `fetchJson` retries exactly on HTTP 429 or 5xx while attempts
remain, sleeping the linear backoff `(attempt + 1) * 1500` between attempts;
after the final failed retryable attempt it raises the error carrying status
and URL; any other non-success status raises immediately with no retry; and a
successful response with an absent `_data` member yields an empty row list. -/
theorem fetchJson_spec :
    (∀ (α : Type) (net : Nat → HttpResponse α) (url : String),
      (net 0).ok = false → ¬((net 0).status = 429 ∨ 500 ≤ (net 0).status) →
      fetchJson net url =
        (.error ("HTTP " ++ toString (net 0).status ++ " while fetching " ++ url), [])) ∧
    (∀ (α : Type) (net : Nat → HttpResponse α) (url : String),
      (∀ a, a ≤ 3 → (net a).ok = false ∧ ((net a).status = 429 ∨ 500 ≤ (net a).status)) →
      fetchJson net url =
        (.error ("HTTP " ++ toString (net 3).status ++ " while fetching " ++ url),
         [1500, 3000, 4500])) ∧
    (∀ (α : Type) (net : Nat → HttpResponse α) (url : String) (k : Nat), k ≤ 3 →
      (∀ a, a < k → (net a).ok = false ∧ ((net a).status = 429 ∨ 500 ≤ (net a).status)) →
      (net k).ok = true →
      fetchJson net url =
        (.ok ((net k).data.getD []), (List.range k).map fun a => (a + 1) * 1500)) ∧
    (∀ (α : Type) (net : Nat → HttpResponse α) (url : String),
      (net 0).ok = true → (net 0).data = none → fetchJson net url = (.ok [], [])) := by
  refine ⟨?_, ?_, ?_, ?_⟩
  · intro α net url h1 h2
    simp [fetchJson, fetchJsonGo, h1, h2]
  · intro α net url h
    have h0 := h 0 (by omega)
    have h1 := h 1 (by omega)
    have h2 := h 2 (by omega)
    have h3 := h 3 (by omega)
    simp [fetchJson, fetchJsonGo, h0.1, h0.2, h1.1, h1.2, h2.1, h2.2, h3.1, h3.2]
  · intro α net url k hk hprev hok
    interval_cases k
    · simp [fetchJson, fetchJsonGo, hok]
    · have h0 := hprev 0 (by omega)
      simp [fetchJson, fetchJsonGo, h0.1, h0.2, hok]
      decide
    · have h0 := hprev 0 (by omega)
      have h1 := hprev 1 (by omega)
      simp [fetchJson, fetchJsonGo, h0.1, h0.2, h1.1, h1.2, hok]
      decide
    · have h0 := hprev 0 (by omega)
      have h1 := hprev 1 (by omega)
      have h2 := hprev 2 (by omega)
      simp [fetchJson, fetchJsonGo, h0.1, h0.2, h1.1, h1.2, h2.1, h2.2, hok]
      decide
  · intro α net url h1 h2
    simp [fetchJson, fetchJsonGo, h1, h2]

def netImmediateFail : Nat → HttpResponse Nat := fun _ => ⟨false, 404, none⟩

def netAlwaysBusy : Nat → HttpResponse Nat := fun _ => ⟨false, 503, none⟩

def netBusyTwice : Nat → HttpResponse Nat := fun a =>
  if a < 2 then ⟨false, 429, none⟩ else ⟨true, 200, some [7]⟩

/-- Witness for C5: a 404 fails immediately with no backoff sleeps; a
constant 503 exhausts all four attempts with sleeps 1500/3000/4500; two 429s
followed by a success return the rows after sleeps 1500/3000. -/
theorem fetchJson_spec_witness :
    fetchJson netImmediateFail "u" =
      (.error ("HTTP " ++ toString 404 ++ " while fetching " ++ "u"), []) ∧
    fetchJson netAlwaysBusy "u" =
      (.error ("HTTP " ++ toString 503 ++ " while fetching " ++ "u"), [1500, 3000, 4500]) ∧
    fetchJson netBusyTwice "u" = (.ok [7], [1500, 3000]) :=
  ⟨fetchJson_spec.1 Nat netImmediateFail "u" rfl (by decide),
   fetchJson_spec.2.1 Nat netAlwaysBusy "u"
     (fun a _ => ⟨rfl, Or.inr (by show (500 : Nat) ≤ 503; decide)⟩),
   fetchJson_spec.2.2.1 Nat netBusyTwice "u" 2 (by decide)
     (fun a ha => by simp [netBusyTwice, ha]) rfl⟩

/-- Membership in a round's candidate list is exactly: an unresolved document
together with its edition at the round's list position. -/
theorem roundCandidates_mem (E : String → List EditionRecord) (r : Nat)
    (u : List String) (c : String × EditionRecord) :
    c ∈ roundCandidates E r u ↔ c.1 ∈ u ∧ (E c.1).get? r = some c.2 := by
  constructor
  · intro h
    rcases List.mem_filterMap.mp h with ⟨a, ha, hfa⟩
    rcases Option.map_eq_some'.mp hfa with ⟨e, he, hae⟩
    cases hae
    exact ⟨ha, he⟩
  · intro h
    refine List.mem_filterMap.mpr ⟨c.1, h.1, ?_⟩
    rw [h.2]
    rfl

def exE1 : EditionRecord := ⟨"doc", "s1", "url-e1", "2024-01-01", none⟩

def exE2 : EditionRecord := ⟨"doc", "s2", "url-e2", "2020-01-01", some "2024-01-01"⟩

/-- A document whose newest edition (`exE1`) has blank text and whose older
edition (`exE2`) has non-empty text. -/
def exEditions : String → List EditionRecord := fun d =>
  if d = "doc" then [exE1, exE2] else []

def exDb : String → Option EditionTextRecord := fun s =>
  if s = "s1" then some ⟨exE1, some "   "⟩
  else if s = "s2" then some ⟨exE2, some " Tekstas antras "⟩
  else none

/-- Claim C1: a document that fails in round `r` (its round-`r` candidate's
fetched text is empty after trimming, or it has no candidate at position `r`)
is carried into the next round's unresolved list iff its edition list has
more than `r + 1` entries; and on the concrete two-edition example (newest
edition blank, older edition non-empty, no preferred edition) round 0 tries
and rejects the newest edition, and the full resolver resolves the document
in round 1 with an edition-sourced `SelectedSource` built from the older
edition. -/
theorem resolveRound_carry_spec :
    (∀ (editionsByDoc : String → List EditionRecord)
        (db : String → Option EditionTextRecord) (chunkTexts round : Nat)
        (unresolved : List String) (docId : String),
      docId ∈ unresolved →
      (match (editionsByDoc docId).get? round with
       | some e =>
         (candText (roundTextMap db chunkTexts
           (roundCandidates editionsByDoc round unresolved)) e).length = 0
       | none => True) →
      (docId ∈ (resolveRound editionsByDoc db chunkTexts round unresolved).2 ↔
        round + 1 < (editionsByDoc docId).length)) ∧
    resolveRound exEditions exDb 40 0 ["doc"] = ([], ["doc"]) ∧
    resolveSuvestineSources exEditions exDb 40 20 ["doc"] =
      ([("doc", ⟨SourceModel.Suvestine, "url-e2", "Tekstas antras", some exE2⟩)], []) := by
  refine ⟨?_, by decide, by decide⟩
  intro E db ct r u docId hmem hfail
  simp only [resolveRound]
  rw [List.mem_append]
  cases hopt : (E docId).get? r with
  | none =>
    have hlen : (E docId).length ≤ r := List.get?_eq_none.mp hopt
    constructor
    · intro hin
      rcases hin with h | h
      · exfalso
        rcases List.mem_filterMap.mp h with ⟨c, hc, hfc⟩
        have hc' := (roundCandidates_mem E r u c).mp hc
        by_cases h1 : 0 < (candText (roundTextMap db ct (roundCandidates E r u)) c.2).length
        · rw [if_pos h1] at hfc
          exact Option.noConfusion hfc
        · rw [if_neg h1] at hfc
          by_cases h2 : r + 1 < (E c.1).length
          · rw [if_pos h2] at hfc
            have hceq : c.1 = docId := Option.some.inj hfc
            rw [hceq] at hc'
            rw [hopt] at hc'
            exact Option.noConfusion hc'.2
          · rw [if_neg h2] at hfc
            exact Option.noConfusion hfc
      · have h2 := (List.mem_filter.mp h).2
        exact of_decide_eq_true h2
    · intro hlt
      omega
  | some e =>
    rw [hopt] at hfail
    constructor
    · intro hin
      rcases hin with h | h
      · rcases List.mem_filterMap.mp h with ⟨c, hc, hfc⟩
        have hc' := (roundCandidates_mem E r u c).mp hc
        by_cases h1 : 0 < (candText (roundTextMap db ct (roundCandidates E r u)) c.2).length
        · rw [if_pos h1] at hfc
          exact Option.noConfusion hfc
        · rw [if_neg h1] at hfc
          by_cases h2 : r + 1 < (E c.1).length
          · rw [if_pos h2] at hfc
            have hceq : c.1 = docId := Option.some.inj hfc
            rw [hceq] at h2
            exact h2
          · rw [if_neg h2] at hfc
            exact Option.noConfusion hfc
      · exfalso
        have hmem2 := List.mem_filter.mp h
        have h3 := (List.mem_filter.mp hmem2.1).2
        rw [hopt] at h3
        exact Bool.noConfusion h3
    · intro hlt
      left
      apply List.mem_filterMap.mpr
      refine ⟨(docId, e), (roundCandidates_mem E r u (docId, e)).mpr ⟨hmem, hopt⟩, ?_⟩
      rw [if_neg (by dsimp only; omega), if_pos hlt]

/-- Witness for C1: on the concrete example, the document fails round 0 and
is carried exactly because a second edition exists. -/
theorem resolveRound_carry_witness :
    ("doc" ∈ (resolveRound exEditions exDb 40 0 ["doc"]).2 ↔
      0 + 1 < (exEditions "doc").length) :=
  resolveRound_carry_spec.1 exEditions exDb 40 0 ["doc"] "doc" (by decide)
    ((by decide :
      (candText (roundTextMap exDb 40 (roundCandidates exEditions 0 ["doc"])) exE1).length = 0))

/-- The dedup loop produces pairwise-distinct keys, and never re-emits a key
already in `seen`. -/
theorem dedupGo_nodup : ∀ (ds : List ParsedDefinition) (seen : List (List Char)),
    ((dedupGo ds seen).map defKey).Nodup ∧
      ∀ k ∈ seen, k ∉ (dedupGo ds seen).map defKey := by
  intro ds
  induction ds with
  | nil => intro seen; simp [dedupGo]
  | cons d rest ih =>
    intro seen
    by_cases h : defKey d ∈ seen
    · simp only [dedupGo, if_pos h]
      exact ih seen
    · simp only [dedupGo, if_neg h]
      constructor
      · simp only [List.map_cons, List.nodup_cons]
        exact ⟨(ih (defKey d :: seen)).2 (defKey d) (List.mem_cons_self _ _),
               (ih (defKey d :: seen)).1⟩
      · intro k hk
        simp only [List.map_cons, List.mem_cons, not_or]
        constructor
        · intro he
          exact h (he ▸ hk)
        · exact (ih (defKey d :: seen)).2 k (List.mem_cons_of_mem _ hk)

/-- `collectArticleMarkersSt` always leaves the global regex's `lastIndex`
at 0: the `exec` loop only stops when `exec` returns `null`, which resets it. -/
theorem collectArticleMarkersSt_state (t : List Char) (s : Nat) :
    (collectArticleMarkersSt t s).2 = 0 := by
  unfold collectArticleMarkersSt
  split <;> rfl

/-- The provisions of a parse are the provisions built from the relevant
slice's chapter and article markers (trivially so also when no article
heading exists and everything is empty). -/
theorem parse_provisions_eq_build (t : List Char) :
    (parseLithuanianLawText t).provisions =
      (buildGo (relevantText t) (parseChapterMarkers (relevantText t))
        (collectArticleMarkersSt (relevantText t) 0).1).1 := by
  unfold parseLithuanianLawText parseLithuanianLawTextSt relevantText
  cases h : firstArticleSearch (trimTrailingSections (normalizeInput t)) true 0 with
  | none => simp only [h]; rfl
  | some fi => simp only [h]

/-- The definitions of a parse are the raw cross-provision concatenation
capped at 200. -/
theorem parse_defs_eq_take (t : List Char) :
    (parseLithuanianLawText t).definitions = (documentRawDefinitions t).take 200 := by
  unfold parseLithuanianLawText parseLithuanianLawTextSt documentRawDefinitions relevantText
  cases h : firstArticleSearch (trimTrailingSections (normalizeInput t)) true 0 with
  | none => simp only [h]; rfl
  | some fi => simp only [h]

/-- Every provision `buildGo` emits comes from one of the article markers,
with its chapter assigned through `chapterForIndex` at that marker's index and
its reference key derived from that marker's sanitized section label. -/
theorem buildGo_mem (relevant : List Char) (chapters : List ChapterMarker) :
    ∀ (ms : List ArticleMarker) (p : ParsedProvision),
      p ∈ (buildGo relevant chapters ms).1 →
      ∃ m ∈ ms, p.chapter = chapterForIndex chapters m.index ∧
        p.sectionLabel = sanitizeSection m.sectionLabel ∧
        p.provision_ref = makeProvisionRef (sanitizeSection m.sectionLabel) := by
  intro ms
  induction ms with
  | nil => intro p hp; simp [buildGo] at hp
  | cons m rest ih =>
    intro p hp
    simp only [buildGo] at hp
    split at hp
    · rcases ih p hp with ⟨m', hm', hrest⟩
      exact ⟨m', List.mem_cons_of_mem _ hm', hrest⟩
    · rename_i prov hb
      rcases List.mem_cons.mp hp with he | htail
      · subst he
        simp only [buildProvision] at hb
        split at hb
        · exact Option.noConfusion hb
        · cases Option.some.inj hb
          exact ⟨m, List.mem_cons_self _ _, rfl, rfl, rfl⟩
      · rcases ih p htail with ⟨m', hm', hrest⟩
        exact ⟨m', List.mem_cons_of_mem _ hm', hrest⟩

/-- The provisions `buildGo` emits are exactly the per-marker constructions
over the markers paired with their own stop offsets, in marker order. -/
theorem buildGo_provisions_eq (relevant : List Char) (chapters : List ChapterMarker) :
    ∀ ms : List ArticleMarker,
      (buildGo relevant chapters ms).1 =
        (markerStops relevant ms).filterMap fun ma =>
          buildProvision relevant chapters ma.1 ma.2 := by
  intro ms
  induction ms with
  | nil => rfl
  | cons m rest ih =>
    simp only [buildGo, markerStops, List.filterMap_cons]
    cases hb : buildProvision relevant chapters m
        (match rest.head? with
         | some n => n.index
         | none => relevant.length) with
    | none => simpa [hb] using ih
    | some prov => simpa [hb] using ih

/-- Claim C2 (amended): deduplication by (lowercased term, exact definition
text) holds within each provision's extraction (the keys of one provision's
extracted list are pairwise distinct); the document-level definitions list is
exactly the cross-provision concatenation capped at 200 entries in extraction
order.  Deduplication does not extend across provisions (see the
counterexample). -/
theorem definitions_dedup_cap_spec :
    (∀ content provisionRef,
      ((extractDefinitionsFromProvision content provisionRef).map defKey).Nodup) ∧
    (∀ t, (parseLithuanianLawText t).definitions = (documentRawDefinitions t).take 200) ∧
    (∀ t, (parseLithuanianLawText t).definitions.length ≤ 200) := by
  refine ⟨?_, parse_defs_eq_take, ?_⟩
  · intro c r
    unfold extractDefinitionsFromProvision
    exact (dedupGo_nodup _ []).1
  · intro t
    rw [parse_defs_eq_take t]
    simp only [List.length_take]
    omega

def c2Text : List Char :=
  ("1 straipsnis. Sąvokos\n1. Duomenys – informacija apie asmeni.\n2 straipsnis. Sąvokos\n1. Duomenys – informacija apie asmeni.\n").data

/-- Counterexample to C2 as stated: two provisions each defining the same
(term, definition) pair yield two entries with identical dedup keys in one
document's output — the dedup does not hold across provisions. -/
theorem c2_cross_provision_duplicate :
    (parseLithuanianLawText c2Text).definitions.map defKey =
      ["duomenys|informacija apie asmeni.".data,
       "duomenys|informacija apie asmeni.".data] ∧
    ¬ ((parseLithuanianLawText c2Text).definitions.map defKey).Nodup := by
  have h : (parseLithuanianLawText c2Text).definitions.map defKey =
      ["duomenys|informacija apie asmeni.".data,
       "duomenys|informacija apie asmeni.".data] := by decide
  exact ⟨h, by rw [h]; decide⟩

/-- Claim C3 (amended): the provisions of a parse have pairwise distinct
reference keys whenever the *normalized* section labels (lowercased, stripped
to `[0-9a-z-]`) are pairwise distinct.  (Distinctness of the raw labels is
not enough: see the counterexample, where labels differing only in letter
case collide.) -/
theorem provisionRef_unique_spec :
    ∀ t, ((parseLithuanianLawText t).provisions.map fun p =>
        normalizeSectionKey p.sectionLabel).Pairwise (· ≠ ·) →
      ((parseLithuanianLawText t).provisions.map fun p =>
        p.provision_ref).Pairwise (· ≠ ·) := by
  intro t h
  rw [List.pairwise_map] at h ⊢
  have href : ∀ p ∈ (parseLithuanianLawText t).provisions,
      p.provision_ref = "art".data ++ normalizeSectionKey p.sectionLabel := by
    intro p hp
    rw [parse_provisions_eq_build t] at hp
    rcases buildGo_mem _ _ _ p hp with ⟨m, _, _, hsec, hrefm⟩
    rw [hrefm, makeProvisionRef, hsec]
  refine h.imp_of_mem ?_
  intro a b ha hb hne heq
  apply hne
  rw [href a ha, href b hb] at heq
  exact List.append_cancel_left heq

def c3wText : List Char :=
  ("1 straipsnis. Pirmas\nTurinys vienas.\n2 straipsnis. Antras\nTurinys du.\n").data

/-- Witness for C3: a document whose normalized labels are distinct gets
pairwise distinct reference keys. -/
theorem provisionRef_unique_witness :
    ((parseLithuanianLawText c3wText).provisions.map fun p =>
      p.provision_ref).Pairwise (· ≠ ·) :=
  provisionRef_unique_spec c3wText (by decide)

def c3Text : List Char :=
  ("1A straipsnis. Pirmas\nTekstas vienas.\n1a straipsnis. Antras\nTekstas du.\n").data

/-- Counterexample to C3 as stated: the section labels `1A` and `1a` are
pairwise distinct, yet both normalize to `art1a`, so the reference keys
collide. -/
theorem c3_ref_collision :
    (parseLithuanianLawText c3Text).provisions.map (fun p => p.sectionLabel) =
      ["1A".data, "1a".data] ∧
    (parseLithuanianLawText c3Text).provisions.map (fun p => p.provision_ref) =
      ["art1a".data, "art1a".data] ∧
    ¬ ((parseLithuanianLawText c3Text).provisions.map fun p =>
        p.provision_ref).Pairwise (· ≠ ·) := by
  refine ⟨by decide, ?_, ?_⟩
  · decide
  · have h : (parseLithuanianLawText c3Text).provisions.map (fun p => p.provision_ref) =
        ["art1a".data, "art1a".data] := by decide
    rw [h]
    decide

/-- The accumulator loop of `chapterForIndex` on a strictly
increasing marker list either returns its accumulator (when every marker lies
past `i`) or the label of the maximal marker at or before `i`. -/
theorem chapterForIndexGo_spec (i : Nat) :
    ∀ (cs : List ChapterMarker) (cur : Option (List Char)),
      cs.Pairwise (fun a b => a.index < b.index) →
      (chapterForIndexGo i cur cs = cur ∧ ∀ m ∈ cs, i < m.index) ∨
      (∃ m ∈ cs, chapterForIndexGo i cur cs = some m.label ∧ m.index ≤ i ∧
        ∀ m' ∈ cs, m'.index ≤ i → m'.index ≤ m.index) := by
  intro cs
  induction cs with
  | nil => intro cur _; exact Or.inl ⟨rfl, by simp⟩
  | cons c rest ih =>
    intro cur hs
    rw [List.pairwise_cons] at hs
    by_cases hi : i < c.index
    · left
      constructor
      · simp only [chapterForIndexGo, if_pos hi]
      · intro m hm
        rcases List.mem_cons.mp hm with he | hr
        · exact he ▸ hi
        · exact Nat.lt_trans hi (hs.1 m hr)
    · right
      have hstep : chapterForIndexGo i cur (c :: rest) =
          chapterForIndexGo i (some c.label) rest := by
        simp only [chapterForIndexGo, if_neg hi]
      rcases ih (some c.label) hs.2 with ⟨heq, hall⟩ | ⟨m, hm, heq, hle, hmax⟩
      · refine ⟨c, List.mem_cons_self _ _, ?_, by omega, ?_⟩
        · rw [hstep, heq]
        · intro m' hm' hle'
          rcases List.mem_cons.mp hm' with he | hr
          · exact he ▸ Nat.le_refl _
          · exact absurd hle' (by have := hall m' hr; omega)
      · refine ⟨m, List.mem_cons_of_mem _ hm, ?_, hle, ?_⟩
        · rw [hstep, heq]
        · intro m' hm' hle'
          rcases List.mem_cons.mp hm' with he | hr
          · subst he
            exact Nat.le_of_lt (hs.1 m hm)
          · exact hmax m' hr hle'

/-- Every chapter marker from `parseChaptersGo lines offset` sits at or after
`offset`. -/
theorem parseChaptersGo_lb :
    ∀ (lines : List (List Char)) (offset : Nat),
      ∀ m ∈ parseChaptersGo lines offset, offset ≤ m.index := by
  intro lines
  induction lines with
  | nil => intro offset m hm; simp [parseChaptersGo] at hm
  | cons line rest ih =>
    intro offset m hm
    simp only [parseChaptersGo] at hm
    split at hm
    · rcases List.mem_cons.mp hm with he | hr
      · rw [he]
      · have := ih (offset + line.length + 1) m hr
        omega
    · have := ih (offset + line.length + 1) m hm
      omega

/-- Chapter markers are produced with strictly increasing text offsets (one
marker at most per line, and the offset strictly grows line by line). -/
theorem parseChaptersGo_sorted :
    ∀ (lines : List (List Char)) (offset : Nat),
      (parseChaptersGo lines offset).Pairwise (fun a b => a.index < b.index) := by
  intro lines
  induction lines with
  | nil => intro offset; simp [parseChaptersGo]
  | cons line rest ih =>
    intro offset
    simp only [parseChaptersGo]
    split
    · refine List.pairwise_cons.mpr ⟨?_, ih (offset + line.length + 1)⟩
      intro m hm
      have := parseChaptersGo_lb rest (offset + line.length + 1) m hm
      simp only
      omega
    · exact ih (offset + line.length + 1)

/-- Claim C6: the parse's provisions list is exactly the per-marker
construction over the article markers paired with their own stop offsets, and
every constructed provision's chapter is `chapterForIndex` applied at that
provision's own heading offset (its marker's `index`); the chapter-marker
list is sorted by offset, and on a sorted list `chapterForIndex` returns
precisely the label of the marker with the greatest offset not exceeding the
queried offset — or nothing when every marker lies beyond it; with zero
chapter markers every provision reports no chapter. -/
theorem chapter_assignment_spec :
    (∀ (cs : List ChapterMarker) (i : Nat),
      cs.Pairwise (fun a b => a.index < b.index) →
      ((chapterForIndex cs i = none ↔ ∀ m ∈ cs, i < m.index) ∧
       (∀ l, chapterForIndex cs i = some l →
         ∃ m ∈ cs, m.label = l ∧ m.index ≤ i ∧
           ∀ m' ∈ cs, m'.index ≤ i → m'.index ≤ m.index))) ∧
    (∀ t, (parseChapterMarkers t).Pairwise (fun a b => a.index < b.index)) ∧
    (∀ t, (parseLithuanianLawText t).provisions =
      (markerStops (relevantText t)
          (collectArticleMarkersSt (relevantText t) 0).1).filterMap fun ma =>
        buildProvision (relevantText t) (parseChapterMarkers (relevantText t))
          ma.1 ma.2) ∧
    (∀ (relevant : List Char) (chapters : List ChapterMarker) (m : ArticleMarker)
        (stop : Nat) (p : ParsedProvision),
      buildProvision relevant chapters m stop = some p →
      p.chapter = chapterForIndex chapters m.index) ∧
    (∀ t, parseChapterMarkers (relevantText t) = [] →
      ∀ p ∈ (parseLithuanianLawText t).provisions, p.chapter = none) := by
  have hmain : ∀ (cs : List ChapterMarker) (i : Nat),
      cs.Pairwise (fun a b => a.index < b.index) →
      ((chapterForIndex cs i = none ↔ ∀ m ∈ cs, i < m.index) ∧
       (∀ l, chapterForIndex cs i = some l →
         ∃ m ∈ cs, m.label = l ∧ m.index ≤ i ∧
           ∀ m' ∈ cs, m'.index ≤ i → m'.index ≤ m.index)) := by
    intro cs i hs
    rcases chapterForIndexGo_spec i cs none hs with ⟨heq, hall⟩ | ⟨m, hm, heq, hle, hmax⟩
    · constructor
      · exact ⟨fun _ => hall, fun _ => heq⟩
      · intro l hl
        rw [chapterForIndex] at hl
        rw [heq] at hl
        exact Option.noConfusion hl
    · constructor
      · constructor
        · intro hnone
          rw [chapterForIndex] at hnone
          rw [heq] at hnone
          exact Option.noConfusion hnone
        · intro hall
          exact absurd hle (by have := hall m hm; omega)
      · intro l hl
        rw [chapterForIndex] at hl
        rw [heq] at hl
        exact ⟨m, hm, Option.some.inj hl, hle, hmax⟩
  have hfmap : ∀ t, (parseLithuanianLawText t).provisions =
      (markerStops (relevantText t)
          (collectArticleMarkersSt (relevantText t) 0).1).filterMap fun ma =>
        buildProvision (relevantText t) (parseChapterMarkers (relevantText t))
          ma.1 ma.2 := by
    intro t
    rw [parse_provisions_eq_build t]
    exact buildGo_provisions_eq _ _ _
  have hchap : ∀ (relevant : List Char) (chapters : List ChapterMarker)
      (m : ArticleMarker) (stop : Nat) (p : ParsedProvision),
      buildProvision relevant chapters m stop = some p →
      p.chapter = chapterForIndex chapters m.index := by
    intro relevant chapters m stop p hb
    simp only [buildProvision] at hb
    split at hb
    · exact Option.noConfusion hb
    · cases Option.some.inj hb
      rfl
  refine ⟨hmain, ?_, hfmap, hchap, ?_⟩
  · intro t
    exact parseChaptersGo_sorted _ 0
  · intro t hnil p hp
    rw [hfmap t] at hp
    rcases List.mem_filterMap.mp hp with ⟨ma, _, hb⟩
    rw [hchap _ _ _ _ _ hb, hnil]
    rfl

def c6wText : List Char :=
  ("1 straipsnis. Tikslas\nTurinys vienas.\n").data

def c6wProvision : ParsedProvision :=
  ⟨"art1".data, none, "1".data, "1 straipsnis. Tikslas".data, "Turinys vienas.".data⟩

/-- Witness for C6: in a document with zero chapter markers the parsed
provision reports no chapter, and the per-marker constructor assigns its
chapter by looking up the marker's own heading offset (0 here). -/
theorem chapter_assignment_witness :
    c6wProvision.chapter = none ∧
    c6wProvision.chapter =
      chapterForIndex (parseChapterMarkers (relevantText c6wText)) 0 :=
  ⟨chapter_assignment_spec.2.2.2.2 c6wText (by decide) c6wProvision (by decide),
   chapter_assignment_spec.2.2.2.1 (relevantText c6wText)
     (parseChapterMarkers (relevantText c6wText))
     ⟨"1".data, "Tikslas".data, 0, 21⟩ 38 c6wProvision (by decide)⟩

/-- Claim C8: segmentation is deterministic despite the module-level global
regex used for article-heading matching.  Every complete invocation leaves
the global `lastIndex` at 0 (the `exec` loop only stops on `null`, which
resets it, and the heading-less early return never touches the regex), so any
later invocation — back-to-back on the same input or after segmenting a
different document — starts from state 0 and returns exactly the
fresh-state result. -/
theorem segmenter_deterministic :
    (∀ t, (parseLithuanianLawTextSt t 0).2 = 0) ∧
    (∀ t1 t2, (parseLithuanianLawTextSt t2 (parseLithuanianLawTextSt t1 0).2).1 =
      parseLithuanianLawText t2) ∧
    (∀ t, (parseLithuanianLawTextSt t (parseLithuanianLawTextSt t 0).2).1 =
      parseLithuanianLawText t) := by
  have h0 : ∀ t, (parseLithuanianLawTextSt t 0).2 = 0 := by
    intro t
    unfold parseLithuanianLawTextSt
    cases h : firstArticleSearch (trimTrailingSections (normalizeInput t)) true 0 with
    | none => simp only [h]
    | some fi => simp only [h, collectArticleMarkersSt_state]
  refine ⟨h0, ?_, ?_⟩
  · intro t1 t2
    rw [h0 t1]
    rfl
  · intro t
    rw [h0 t]
    rfl
